import Mathlib

/-!
Verification of `halfpipe/interface/fslnumpy/miscmaths.py`.

The module defines a decorator `adaptive_precision` that evaluates a wrapped
mpmath expression at doubling working precision (`dps = 16, 32, ..., 65536`)
until two consecutive narrowed (float64) values agree per `math.isclose`,
with pre-checks for NaN arguments and an infinite primary statistic, and
special handling of `ValueError` (treated as an infinite estimate, retried)
and `ZeroDivisionError` (immediate NaN).  Two converters `t2z_convert` and
`f2z_convert` are wrapped by it.

The embedding below models float64 values symbolically (`FloatV`, finite
values as rationals) and abstracts the mpmath special-function expression of
each converter as an oracle `ℕ → EvalResult` giving, for each working
precision `dps`, either the narrowed float value `float(func(*args))` or the
exception the evaluation raised.  Control flow of the wrapper is translated
verbatim from the source; `RunResult` additionally records the observable
side effects needed by the claims: the list of precisions at which the
expression was evaluated (`trace`), whether `logger.warning` was called
(`warned`), and which exit path produced the result (`outcome`).
-/

namespace Miscmaths

/-- Float64 values as the wrapper observes them: NaN, a signed infinity, or a
finite value (modelled exactly as a rational). -/
inductive FloatV where
  | nan : FloatV
  | posInf : FloatV
  | negInf : FloatV
  | fin : ℚ → FloatV
deriving DecidableEq

/-- Python `math.isnan`. -/
def FloatV.isNaN : FloatV → Bool
  | .nan => true
  | _ => false

/-- Python `math.isinf`. -/
def FloatV.isInf : FloatV → Bool
  | .posInf => true
  | .negInf => true
  | _ => false

/-- Python `math.isfinite`. -/
def FloatV.isFinite : FloatV → Bool
  | .fin _ => true
  | _ => false

/-- Default `rel_tol` of Python `math.isclose`: 1e-09. -/
def relTol : ℚ := 1 / 1000000000

/-- Python `math.isclose a b` with default `rel_tol=1e-09`, `abs_tol=0.0`:
`a == b` short-circuits (which makes equal infinities close), any other
comparison involving a non-finite value is `False`, and for finite values the
test is `abs (a-b) <= max (rel_tol * max |a| |b|) abs_tol`. -/
def isclose : FloatV → FloatV → Bool
  | .fin a, .fin b => decide (|a - b| ≤ max (relTol * max |a| |b|) 0)
  | .posInf, .posInf => true
  | .negInf, .negInf => true
  | _, _ => false

/-- Result of one attempt `z = float(func(*args))` at a given working
precision: the narrowed value, or the exception raised. -/
inductive EvalResult where
  | ok : FloatV → EvalResult
  | valueError : EvalResult
  | zeroDivisionError : EvalResult
deriving DecidableEq

/-- Value of the loop variable `z` after the `try` block, when no early
return happened: the narrowed value on success, and the initial `z = math.inf`
when a `ValueError` was swallowed by `pass`.  (`zeroDivisionError` is mapped
arbitrarily; the loop returns before reading `z` in that case.) -/
def evalValue : EvalResult → FloatV
  | .ok v => v
  | .valueError => .posInf
  | .zeroDivisionError => .nan

/-- Which exit path of the wrapper produced the result. -/
inductive Outcome where
  | precheckNaN : Outcome
  | precheckInf : Outcome
  | converged : Outcome
  | zeroDiv : Outcome
  | exhausted : Outcome
deriving DecidableEq

/-- Result of a wrapper run, with the observable side effects: `trace` lists
the `dps` of every evaluation of the wrapped expression in order, `warned`
records whether `logger.warning` was called, `outcome` the exit path. -/
structure RunResult where
  value : FloatV
  trace : List ℕ
  warned : Bool
  outcome : Outcome
deriving DecidableEq

/-- The convergence test of the loop body, translated from
`if zprev is not None: if math.isfinite(z): if math.isclose(z, zprev):`. -/
def acceptTest (z : FloatV) (zprev : Option FloatV) : Bool :=
  match zprev with
  | some p => z.isFinite && isclose z p
  | none => false

/-- The `while dps <= 2 ** 16` loop of `adaptive_precision.wrapper`.  Each
iteration evaluates the expression once at the current `dps`; on
`ZeroDivisionError` it returns NaN at once; on acceptance it returns the
current value; otherwise it doubles `dps` and records the current value as
`zprev`.  On exhaustion the source warns iff the last value is not NaN and
returns that last value (`zprev = some z` always holds there when the entry
precision is at most the bound; the `none` base case is unreachable from the
wrapper and mirrors the undefined `z` of Python).  `hdps` carries the fact that
the entry precision is positive, which makes the doubling terminate.
`recordStep` prepends the current precision to the trace of the continuation
(`dps *= 2; zprev = z`). -/
def recordStep (dps : ℕ) (rest : RunResult) : RunResult :=
  { value := rest.value, trace := dps :: rest.trace, warned := rest.warned,
    outcome := rest.outcome }

/-- The loop itself; see `recordStep` just above for the shared commentary. -/
def adaptiveLoop (f : ℕ → EvalResult) (dps : ℕ) (zprev : Option FloatV)
    (hdps : 0 < dps) : RunResult :=
  if h : dps ≤ 65536 then
    if f dps = .zeroDivisionError then
      { value := .nan, trace := [dps], warned := false, outcome := .zeroDiv }
    else if acceptTest (evalValue (f dps)) zprev then
      { value := evalValue (f dps), trace := [dps], warned := false,
        outcome := .converged }
    else
      recordStep dps (adaptiveLoop f (2 * dps) (some (evalValue (f dps))) (by omega))
  else
    match zprev with
    | some z => { value := z, trace := [], warned := !z.isNaN, outcome := .exhausted }
    | none => { value := .nan, trace := [], warned := false, outcome := .exhausted }
termination_by 131072 - dps
decreasing_by omega

/-- Entry precision `dps = 2 ** 4` is positive. -/
def sixteen_pos : (0 : ℕ) < 16 := by norm_num

/-- The `wrapper` produced by the `adaptive_precision` decorator, for a
wrapped function whose evaluation behaviour is the oracle `f` and whose
argument tuple is `a0 :: rest` (the source indexes `args[0]`, so every
wrapped call has at least one argument). -/
def adaptive_precision (f : ℕ → EvalResult) (a0 : FloatV) (rest : List FloatV) :
    RunResult :=
  if (a0 :: rest).any FloatV.isNaN then
    { value := .nan, trace := [], warned := false, outcome := .precheckNaN }
  else if a0.isInf then
    { value := a0, trace := [], warned := false, outcome := .precheckInf }
  else
    adaptiveLoop f 16 none sixteen_pos

/-- Comparison `mpf(v) < mpf("0")` as mpmath evaluates it: false for NaN,
true for negative infinity and negative finite values. -/
def mpfLtZero : FloatV → Bool
  | .fin q => decide (q < 0)
  | .negInf => true
  | _ => false

/-- Body of `f2z_convert` before decoration: the guard
`if x < 0 or d1 < 0 or d2 < 0: return mpf("0")` is translated exactly
(`float(mpf("0")) = 0.0` at every precision); the erfinv/betainc expression
of the non-guarded branch is abstracted as the oracle `expr`. -/
def f2z_body (x d1 d2 : FloatV) (expr : ℕ → EvalResult) : ℕ → EvalResult :=
  fun dps =>
    if mpfLtZero x || mpfLtZero d1 || mpfLtZero d2 then .ok (.fin 0)
    else expr dps

/-- The decorated `f2z_convert x d1 d2`; `expr` is the oracle for the
special-function branch of the body. -/
def f2z_convert (x d1 d2 : FloatV) (expr : ℕ → EvalResult) : RunResult :=
  adaptive_precision (f2z_body x d1 d2 expr) x [d1, d2]

/-- The decorated `t2z_convert t nu`; the body is a single erfinv/gamma/hyper
expression with no guard, abstracted whole as the oracle `expr`. -/
def t2z_convert (t nu : FloatV) (expr : ℕ → EvalResult) : RunResult :=
  adaptive_precision expr t [nu]

/-- Acceptance condition in the words of the spec: a previous iteration
produced a finite narrowed value, the current narrowed value is finite, and
the two are within relative tolerance 1e-9 (absolute tolerance 0) of each
other.  Kept separate from `acceptTest`, which is translated from the code,
so that the two can be compared. -/
def specAccept (z : FloatV) (zprev : Option FloatV) : Prop :=
  ∃ a b, z = FloatV.fin a ∧ zprev = some (FloatV.fin b) ∧
    |a - b| ≤ relTol * max |a| |b|

theorem range_map_double (dps n : ℕ) :
    (List.range (n + 1)).map (fun i => dps * 2 ^ i)
      = dps :: (List.range n).map (fun i => 2 * dps * 2 ^ i) := by
  rw [List.range_succ_eq_map]
  simp only [List.map_cons, List.map_map, pow_zero, mul_one]
  refine congrArg _ ?_
  refine List.map_congr_left ?_
  intro a _
  simp only [Function.comp_apply, Nat.succ_eq_add_one, pow_succ]
  ring

theorem adaptiveLoop_trace_shape (f : ℕ → EvalResult) (dps : ℕ) (hdps : 0 < dps)
    (zprev : Option FloatV) :
    ∃ n, (adaptiveLoop f dps zprev hdps).trace = (List.range n).map (fun i => dps * 2 ^ i)
      ∧ ∀ i, i < n → dps * 2 ^ i ≤ 65536 := by
  rw [adaptiveLoop.eq_def]
  split
  next h =>
    split
    next hz =>
      refine ⟨1, ?_, by intro i hi; interval_cases i; simpa using h⟩
      simp [List.range_succ]
    next hz =>
      split
      next ha =>
        refine ⟨1, ?_, by intro i hi; interval_cases i; simpa using h⟩
        simp [List.range_succ]
      next ha =>
        obtain ⟨n, hn, hb⟩ := adaptiveLoop_trace_shape f (2 * dps) (by omega)
          (some (evalValue (f dps)))
        refine ⟨n + 1, ?_, ?_⟩
        · rw [range_map_double]
          rw [recordStep, hn]
        · intro i hi
          cases i with
          | zero => simpa using h
          | succ j =>
            have hj := hb j (by omega)
            calc dps * 2 ^ (j + 1) = 2 * dps * 2 ^ j := by ring
            _ ≤ 65536 := hj
  next h =>
    refine ⟨0, ?_, by omega⟩
    cases zprev <;> simp
termination_by 131072 - dps
decreasing_by omega

theorem adaptiveLoop_base (f : ℕ → EvalResult) (dps : ℕ) (hdps : 0 < dps)
    (z : FloatV) (h : ¬ dps ≤ 65536) :
    adaptiveLoop f dps (some z) hdps =
      { value := z, trace := [], warned := !z.isNaN, outcome := .exhausted } := by
  rw [adaptiveLoop.eq_def, dif_neg h]

theorem adaptiveLoop_zeroDiv (f : ℕ → EvalResult) (dps : ℕ) (hdps : 0 < dps)
    (zprev : Option FloatV) (h65 : dps ≤ 65536) (hz : f dps = .zeroDivisionError) :
    adaptiveLoop f dps zprev hdps =
      { value := .nan, trace := [dps], warned := false, outcome := .zeroDiv } := by
  rw [adaptiveLoop.eq_def, dif_pos h65, if_pos hz]

theorem adaptiveLoop_accept (f : ℕ → EvalResult) (dps : ℕ) (hdps : 0 < dps)
    (zprev : Option FloatV) (h65 : dps ≤ 65536) (hz : f dps ≠ .zeroDivisionError)
    (ha : acceptTest (evalValue (f dps)) zprev = true) :
    adaptiveLoop f dps zprev hdps =
      { value := evalValue (f dps), trace := [dps], warned := false,
        outcome := .converged } := by
  rw [adaptiveLoop.eq_def, dif_pos h65, if_neg hz, if_pos ha]

theorem adaptiveLoop_continue (f : ℕ → EvalResult) (dps : ℕ) (hdps : 0 < dps)
    (zprev : Option FloatV) (h65 : dps ≤ 65536) (hz : f dps ≠ .zeroDivisionError)
    (ha : acceptTest (evalValue (f dps)) zprev = false) :
    adaptiveLoop f dps zprev hdps =
      recordStep dps (adaptiveLoop f (2 * dps) (some (evalValue (f dps))) (by omega)) := by
  rw [adaptiveLoop.eq_def, dif_pos h65, if_neg hz, if_neg (by simp [ha])]

theorem adaptiveLoop_exhausted_spec (f : ℕ → EvalResult) (dps : ℕ) (hdps : 0 < dps)
    (zprev : Option FloatV) (h65 : dps ≤ 65536)
    (hx : (adaptiveLoop f dps zprev hdps).outcome = .exhausted) :
    ∃ k, dps * 2 ^ k ≤ 65536 ∧ 65536 < dps * 2 ^ (k + 1) ∧
      (adaptiveLoop f dps zprev hdps).value = evalValue (f (dps * 2 ^ k)) ∧
      (adaptiveLoop f dps zprev hdps).warned
        = !(evalValue (f (dps * 2 ^ k))).isNaN := by
  by_cases hz : f dps = .zeroDivisionError
  · rw [adaptiveLoop_zeroDiv f dps hdps zprev h65 hz] at hx
    exact absurd hx (by simp)
  · by_cases ha : acceptTest (evalValue (f dps)) zprev = true
    · rw [adaptiveLoop_accept f dps hdps zprev h65 hz ha] at hx
      exact absurd hx (by simp)
    · rw [adaptiveLoop_continue f dps hdps zprev h65 hz
        (Bool.not_eq_true _ ▸ ha)] at hx ⊢
      by_cases h2 : 2 * dps ≤ 65536
      · obtain ⟨k, hk1, hk2, hkv, hkw⟩ := adaptiveLoop_exhausted_spec f (2 * dps)
          (by omega) (some (evalValue (f dps))) h2 (by simpa [recordStep] using hx)
        refine ⟨k + 1, ?_, ?_, ?_, ?_⟩
        · calc dps * 2 ^ (k + 1) = 2 * dps * 2 ^ k := by ring
          _ ≤ 65536 := hk1
        · calc 65536 < 2 * dps * 2 ^ (k + 1) := hk2
          _ = dps * 2 ^ (k + 1 + 1) := by ring
        · have he : dps * 2 ^ (k + 1) = 2 * dps * 2 ^ k := by ring
          simp only [recordStep, he]
          exact hkv
        · have he : dps * 2 ^ (k + 1) = 2 * dps * 2 ^ k := by ring
          simp only [recordStep, he]
          exact hkw
      · rw [adaptiveLoop_base f (2 * dps) (by omega) _ h2]
        refine ⟨0, by simpa using h65, by simp at h2 ⊢; omega, ?_, ?_⟩ <;>
          simp [recordStep]
termination_by 131072 - dps
decreasing_by omega

/-- Claim C5: for every call to `t2z_convert` or `f2z_convert` in which no argument
is NaN and the primary statistic (first argument) is `+inf` or `-inf`, the
result is that same signed infinity and the converter expression is never
evaluated (empty evaluation trace). -/
theorem infinite_statistic_passthrough (eT eF : ℕ → EvalResult)
    (t nu x d1 d2 : FloatV) (hT : t.isInf = true) (hnu : nu.isNaN = false)
    (hF : x.isInf = true) (hd1 : d1.isNaN = false) (hd2 : d2.isNaN = false) :
    (t2z_convert t nu eT).value = t ∧ (t2z_convert t nu eT).trace = [] ∧
      (f2z_convert x d1 d2 eF).value = x ∧ (f2z_convert x d1 d2 eF).trace = [] := by
  have ht' : t.isNaN = false := by
    cases t <;> simp_all [FloatV.isInf, FloatV.isNaN]
  have hx' : x.isNaN = false := by
    cases x <;> simp_all [FloatV.isInf, FloatV.isNaN]
  refine ⟨?_, ?_, ?_, ?_⟩ <;>
    simp [t2z_convert, f2z_convert, adaptive_precision, ht', hnu, hT, hx', hd1,
      hd2, hF]

/-- Witness for claim C5, at `t = +inf`, `nu = 5`, `x = -inf`, `d1 = 5`, `d2 = 5`. -/
theorem infinite_statistic_passthrough_witness :
    (t2z_convert FloatV.posInf (FloatV.fin 5) (fun _ => EvalResult.ok FloatV.nan)).value
        = FloatV.posInf ∧
      (t2z_convert FloatV.posInf (FloatV.fin 5) (fun _ => EvalResult.ok FloatV.nan)).trace
        = [] ∧
      (f2z_convert FloatV.negInf (FloatV.fin 5) (FloatV.fin 5)
          (fun _ => EvalResult.ok FloatV.nan)).value = FloatV.negInf ∧
      (f2z_convert FloatV.negInf (FloatV.fin 5) (FloatV.fin 5)
          (fun _ => EvalResult.ok FloatV.nan)).trace = [] :=
  infinite_statistic_passthrough _ _ _ _ _ _ _ rfl rfl rfl rfl rfl

/-- Claim C6: for every call to `t2z_convert` or `f2z_convert` in which any
argument is NaN, the result is NaN and the precision loop is never entered
(empty evaluation trace). -/
theorem nan_input_passthrough (eT eF : ℕ → EvalResult) (t nu x d1 d2 : FloatV)
    (hT : t.isNaN = true ∨ nu.isNaN = true)
    (hF : x.isNaN = true ∨ d1.isNaN = true ∨ d2.isNaN = true) :
    (t2z_convert t nu eT).value = FloatV.nan ∧ (t2z_convert t nu eT).trace = [] ∧
      (f2z_convert x d1 d2 eF).value = FloatV.nan ∧
      (f2z_convert x d1 d2 eF).trace = [] := by
  have h1 : ([t, nu].any FloatV.isNaN) = true := by
    rcases hT with h | h <;> simp [h]
  have h2 : ([x, d1, d2].any FloatV.isNaN) = true := by
    rcases hF with h | h | h <;> simp [h]
  refine ⟨?_, ?_, ?_, ?_⟩ <;>
    simp [t2z_convert, f2z_convert, adaptive_precision, h1, h2]

/-- Witness for claim C6, at `t = NaN`, `nu = 1`, `x = 1`, `d1 = NaN`, `d2 = 1`. -/
theorem nan_input_passthrough_witness :
    (t2z_convert FloatV.nan (FloatV.fin 1) (fun _ => EvalResult.ok FloatV.nan)).value
        = FloatV.nan ∧
      (t2z_convert FloatV.nan (FloatV.fin 1) (fun _ => EvalResult.ok FloatV.nan)).trace
        = [] ∧
      (f2z_convert (FloatV.fin 1) FloatV.nan (FloatV.fin 1)
          (fun _ => EvalResult.ok FloatV.nan)).value = FloatV.nan ∧
      (f2z_convert (FloatV.fin 1) FloatV.nan (FloatV.fin 1)
          (fun _ => EvalResult.ok FloatV.nan)).trace = [] :=
  nan_input_passthrough _ _ _ _ _ _ _ (Or.inl rfl) (Or.inr (Or.inl rfl))

/-- Claim C7: if any iteration of the precision loop raises `ZeroDivisionError`,
the loop aborts at once with value NaN: exactly one evaluation happens at the
current precision (`trace = [dps]`) and no higher precision is tried. -/
theorem zero_division_aborts (f : ℕ → EvalResult) (dps : ℕ) (hdps : 0 < dps)
    (zprev : Option FloatV) (h65 : dps ≤ 65536)
    (hz : f dps = EvalResult.zeroDivisionError) :
    adaptiveLoop f dps zprev hdps =
      { value := FloatV.nan, trace := [dps], warned := false,
        outcome := Outcome.zeroDiv } :=
  adaptiveLoop_zeroDiv f dps hdps zprev h65 hz

/-- Witness for claim C7: a first-iteration division by zero at `dps = 16`. -/
theorem zero_division_aborts_witness :
    adaptiveLoop (fun _ => EvalResult.zeroDivisionError) 16 none sixteen_pos =
      { value := FloatV.nan, trace := [16], warned := false,
        outcome := Outcome.zeroDiv } :=
  zero_division_aborts _ 16 sixteen_pos none (by norm_num) rfl

/-- Claim C8: a `ValueError` at the current precision is treated as the infinite
estimate `+inf`, the call is not aborted, and the loop records that value and
continues to the next precision level; on the final level (`dps = 65536`) the
call therefore returns `+inf`. -/
theorem value_error_retries (f : ℕ → EvalResult) (dps : ℕ) (hdps : 0 < dps)
    (zprev : Option FloatV) (h65 : dps ≤ 65536) (hv : f dps = EvalResult.valueError) :
    adaptiveLoop f dps zprev hdps
        = recordStep dps (adaptiveLoop f (2 * dps) (some FloatV.posInf) (by omega)) ∧
      (dps = 65536 → (adaptiveLoop f dps zprev hdps).value = FloatV.posInf) := by
  have hz : f dps ≠ EvalResult.zeroDivisionError := by simp [hv]
  have hval : evalValue (f dps) = FloatV.posInf := by rw [hv]; rfl
  have ha : acceptTest (evalValue (f dps)) zprev = false := by
    rw [hval]; cases zprev <;> simp [acceptTest, FloatV.isFinite]
  have hcont := adaptiveLoop_continue f dps hdps zprev h65 hz ha
  rw [hval] at hcont
  refine ⟨hcont, ?_⟩
  intro hd
  subst hd
  rw [hcont, adaptiveLoop_base f (2 * 65536) (by omega) _ (by omega)]
  rfl

/-- Witness for claim C8: a `ValueError` on the final level returns `+inf`. -/
theorem value_error_retries_witness :
    (adaptiveLoop (fun _ => EvalResult.valueError) 65536 (some (FloatV.fin 1))
        (by norm_num)
      = recordStep 65536 (adaptiveLoop (fun _ => EvalResult.valueError) (2 * 65536)
          (some FloatV.posInf) (by norm_num))) ∧
      (adaptiveLoop (fun _ => EvalResult.valueError) 65536 (some (FloatV.fin 1))
          (by norm_num)).value = FloatV.posInf := by
  have h := value_error_retries (fun _ => EvalResult.valueError) 65536 (by norm_num)
    (some (FloatV.fin 1)) (by norm_num) rfl
  exact ⟨h.1, h.2 rfl⟩

theorem relTol_mul_nonneg (a b : ℚ) : 0 ≤ relTol * max |a| |b| := by
  apply mul_nonneg
  · norm_num [relTol]
  · exact (abs_nonneg a).trans (le_max_left _ _)

theorem specAccept_iff_acceptTest (z : FloatV) (zprev : Option FloatV) :
    specAccept z zprev ↔ acceptTest z zprev = true := by
  cases zprev with
  | none => simp [specAccept, acceptTest]
  | some p =>
    cases z with
    | fin a =>
      cases p with
      | fin b =>
        have hmax : max (relTol * max |a| |b|) 0 = relTol * max |a| |b| :=
          max_eq_left (relTol_mul_nonneg a b)
        simp [specAccept, acceptTest, isclose, FloatV.isFinite, hmax]
      | nan => simp [specAccept, acceptTest, isclose, FloatV.isFinite]
      | posInf => simp [specAccept, acceptTest, isclose, FloatV.isFinite]
      | negInf => simp [specAccept, acceptTest, isclose, FloatV.isFinite]
    | nan => simp [specAccept, acceptTest, FloatV.isFinite]
    | posInf => simp [specAccept, acceptTest, FloatV.isFinite]
    | negInf => simp [specAccept, acceptTest, FloatV.isFinite]

/-- Claim C4: within the precision loop (and away from the `ZeroDivisionError`
path) the code accepts and returns the current narrowed value exactly when
the spec-side condition holds (a previous finite narrowed value exists and the
current narrowed value is finite and within relative tolerance 1e-9, absolute
tolerance 0, of it); otherwise it records the current value as previous and
continues at the doubled precision. -/
theorem acceptance_iff_spec_close (f : ℕ → EvalResult) (dps : ℕ) (hdps : 0 < dps)
    (zprev : Option FloatV) (h65 : dps ≤ 65536)
    (hz : f dps ≠ EvalResult.zeroDivisionError) :
    (specAccept (evalValue (f dps)) zprev
        ↔ acceptTest (evalValue (f dps)) zprev = true) ∧
      (acceptTest (evalValue (f dps)) zprev = true →
        adaptiveLoop f dps zprev hdps =
          { value := evalValue (f dps), trace := [dps], warned := false,
            outcome := Outcome.converged }) ∧
      (acceptTest (evalValue (f dps)) zprev = false →
        adaptiveLoop f dps zprev hdps =
          recordStep dps
            (adaptiveLoop f (2 * dps) (some (evalValue (f dps))) (by omega))) := by
  refine ⟨specAccept_iff_acceptTest _ _, ?_, ?_⟩
  · intro ha
    exact adaptiveLoop_accept f dps hdps zprev h65 hz ha
  · intro ha
    exact adaptiveLoop_continue f dps hdps zprev h65 hz ha

/-- Witness for claim C4: at `dps = 16` with previous value `1` and current value
`1`, the loop accepts and returns it. -/
theorem acceptance_iff_spec_close_witness :
    (specAccept (evalValue ((fun _ => EvalResult.ok (FloatV.fin 1)) 16))
        (some (FloatV.fin 1))
      ↔ acceptTest (evalValue ((fun _ => EvalResult.ok (FloatV.fin 1)) 16))
          (some (FloatV.fin 1)) = true) ∧
      (acceptTest (evalValue ((fun _ => EvalResult.ok (FloatV.fin 1)) 16))
          (some (FloatV.fin 1)) = true →
        adaptiveLoop (fun _ => EvalResult.ok (FloatV.fin 1)) 16
            (some (FloatV.fin 1)) sixteen_pos =
          { value := evalValue ((fun _ => EvalResult.ok (FloatV.fin 1)) 16),
            trace := [16], warned := false, outcome := Outcome.converged }) ∧
      (acceptTest (evalValue ((fun _ => EvalResult.ok (FloatV.fin 1)) 16))
          (some (FloatV.fin 1)) = false →
        adaptiveLoop (fun _ => EvalResult.ok (FloatV.fin 1)) 16
            (some (FloatV.fin 1)) sixteen_pos =
          recordStep 16
            (adaptiveLoop (fun _ => EvalResult.ok (FloatV.fin 1)) (2 * 16)
              (some (evalValue ((fun _ => EvalResult.ok (FloatV.fin 1)) 16)))
              (by norm_num))) :=
  acceptance_iff_spec_close (fun _ => EvalResult.ok (FloatV.fin 1)) 16
    sixteen_pos (some (FloatV.fin 1)) (by norm_num) (by simp)

/-- Claim C10: whenever a run of the loop that starts with no previous value (as
every wrapper call does) returns through the convergence test, at least two
evaluations happened, the first two at 16 and 32 digits: the test can only
succeed from the second iteration onward. -/
theorem no_first_iteration_acceptance (f : ℕ → EvalResult)
    (hc : (adaptiveLoop f 16 none sixteen_pos).outcome = Outcome.converged) :
    2 ≤ (adaptiveLoop f 16 none sixteen_pos).trace.length ∧
      (adaptiveLoop f 16 none sixteen_pos).trace.take 2 = [16, 32] := by
  by_cases hz : f 16 = EvalResult.zeroDivisionError
  · rw [adaptiveLoop_zeroDiv f 16 sixteen_pos none (by norm_num) hz] at hc
    exact absurd hc (by simp)
  · have ha : acceptTest (evalValue (f 16)) none = false := rfl
    rw [adaptiveLoop_continue f 16 sixteen_pos none (by norm_num) hz ha]
    by_cases hz2 : f (2 * 16) = EvalResult.zeroDivisionError
    · rw [adaptiveLoop_zeroDiv f (2 * 16) (by norm_num) _ (by norm_num) hz2]
      simp [recordStep]
    · by_cases ha2 : acceptTest (evalValue (f (2 * 16))) (some (evalValue (f 16))) = true
      · rw [adaptiveLoop_accept f (2 * 16) (by norm_num) _ (by norm_num) hz2 ha2]
        simp [recordStep]
      · rw [adaptiveLoop_continue f (2 * 16) (by norm_num) _ (by norm_num) hz2
          (by simpa using ha2)]
        simp [recordStep]

/-- Witness for claim C10: the constant expression `0.0` converges, with exactly the
two evaluations at 16 and 32 digits. -/
theorem no_first_iteration_acceptance_witness :
    2 ≤ (adaptiveLoop (fun _ => EvalResult.ok (FloatV.fin 0)) 16 none
          sixteen_pos).trace.length ∧
      (adaptiveLoop (fun _ => EvalResult.ok (FloatV.fin 0)) 16 none
          sixteen_pos).trace.take 2 = [16, 32] :=
  no_first_iteration_acceptance _
    (by simp [adaptiveLoop, evalValue, acceptTest, FloatV.isFinite, isclose, relTol,
      recordStep])

/-- Counterexample to claim C1 as stated: at the concrete call `f2z_convert (-1) 5 5` the guard
fires and the value is exactly `0.0`, but the precision loop IS entered and
the expression is evaluated twice (at 16 and 32 digits) rather than the
Evaluator being bypassed; and at `f2z_convert (-inf) 5 5`, although the
statistic is negative, the result is `-inf`, not `0.0`, because the infinity
pre-check wins. -/
theorem f2z_negative_domain_not_bypassed :
    (f2z_convert (FloatV.fin (-1)) (FloatV.fin 5) (FloatV.fin 5)
          (fun _ => EvalResult.ok FloatV.nan)).trace = [16, 32] ∧
      (f2z_convert (FloatV.fin (-1)) (FloatV.fin 5) (FloatV.fin 5)
          (fun _ => EvalResult.ok FloatV.nan)).value = FloatV.fin 0 ∧
      (f2z_convert FloatV.negInf (FloatV.fin 5) (FloatV.fin 5)
          (fun _ => EvalResult.ok FloatV.nan)).value = FloatV.negInf := by
  refine ⟨?_, ?_, ?_⟩ <;>
    simp [f2z_convert, adaptive_precision, f2z_body, mpfLtZero, adaptiveLoop,
      evalValue, acceptTest, FloatV.isFinite, FloatV.isNaN, FloatV.isInf,
      isclose, relTol, recordStep]

/-- Claim C1 as amended: when no argument is NaN and the statistic is finite, a call
`f2z_convert x d1 d2` with `x < 0` or `d1 < 0` or `d2 < 0` returns exactly
`0.0` — but through the Evaluator, whose loop evaluates the guarded body twice
(at 16 and 32 digits) and converges, rather than bypassing it. -/
theorem f2z_negative_domain_zero (expr : ℕ → EvalResult) (x d1 d2 : FloatV)
    (hx : x.isNaN = false) (hd1 : d1.isNaN = false) (hd2 : d2.isNaN = false)
    (hxi : x.isInf = false)
    (hneg : (mpfLtZero x || mpfLtZero d1 || mpfLtZero d2) = true) :
    (f2z_convert x d1 d2 expr).value = FloatV.fin 0 ∧
      (f2z_convert x d1 d2 expr).trace = [16, 32] ∧
      (f2z_convert x d1 d2 expr).outcome = Outcome.converged := by
  have hbody : ∀ dps, f2z_body x d1 d2 expr dps = EvalResult.ok (FloatV.fin 0) := by
    intro dps
    simp [f2z_body, hneg]
  have hval : ∀ dps, evalValue (f2z_body x d1 d2 expr dps) = FloatV.fin 0 := by
    intro dps
    rw [hbody]
    rfl
  have hz : ∀ dps, f2z_body x d1 d2 expr dps ≠ EvalResult.zeroDivisionError := by
    intro dps
    rw [hbody]
    simp
  have hrun : f2z_convert x d1 d2 expr
      = adaptiveLoop (f2z_body x d1 d2 expr) 16 none sixteen_pos := by
    simp [f2z_convert, adaptive_precision, hx, hd1, hd2, hxi]
  have ha1 : acceptTest (evalValue (f2z_body x d1 d2 expr 16)) none = false := rfl
  have ha2 : acceptTest (evalValue (f2z_body x d1 d2 expr (2 * 16)))
      (some (evalValue (f2z_body x d1 d2 expr 16))) = true := by
    rw [hval, hval]
    simp [acceptTest, FloatV.isFinite, isclose]
  rw [hrun, adaptiveLoop_continue _ 16 sixteen_pos none (by norm_num) (hz 16) ha1,
    adaptiveLoop_accept _ (2 * 16) (by norm_num) _ (by norm_num) (hz (2 * 16)) ha2,
    hval]
  refine ⟨rfl, by simp [recordStep], rfl⟩

/-- Witness for claim C1, at `x = -1`, `d1 = d2 = 5`. -/
theorem f2z_negative_domain_zero_witness :
    (f2z_convert (FloatV.fin (-1)) (FloatV.fin 5) (FloatV.fin 5)
          (fun _ => EvalResult.valueError)).value = FloatV.fin 0 ∧
      (f2z_convert (FloatV.fin (-1)) (FloatV.fin 5) (FloatV.fin 5)
          (fun _ => EvalResult.valueError)).trace = [16, 32] ∧
      (f2z_convert (FloatV.fin (-1)) (FloatV.fin 5) (FloatV.fin 5)
          (fun _ => EvalResult.valueError)).outcome = Outcome.converged :=
  f2z_negative_domain_zero _ _ _ _ rfl rfl rfl rfl (by simp [mpfLtZero])

/-- Counterexample to claim C2 as stated: an expression whose narrowed value is NaN at every
precision exhausts the loop, the last value (NaN) is returned, but NO
diagnostic warning is emitted, because the source guards the warning with
`if not math.isnan(z)`. -/
theorem exhaustion_nan_skips_warning :
    (adaptiveLoop (fun _ => EvalResult.ok FloatV.nan) 16 none sixteen_pos).outcome
        = Outcome.exhausted ∧
      (adaptiveLoop (fun _ => EvalResult.ok FloatV.nan) 16 none sixteen_pos).value
        = FloatV.nan ∧
      (adaptiveLoop (fun _ => EvalResult.ok FloatV.nan) 16 none sixteen_pos).warned
        = false := by
  refine ⟨?_, ?_, ?_⟩ <;>
    simp [adaptiveLoop, evalValue, acceptTest, FloatV.isFinite, FloatV.isNaN,
      recordStep]

/-- Claim C2 as amended: whenever the precision loop exhausts the maximum precision
without converging, the call returns the value narrowed from the final
evaluation at 65536 digits — even when it is NaN or non-finite — and the
diagnostic warning is emitted if and only if that last value is not NaN. -/
theorem exhaustion_warning_and_value (f : ℕ → EvalResult)
    (hx : (adaptiveLoop f 16 none sixteen_pos).outcome = Outcome.exhausted) :
    (adaptiveLoop f 16 none sixteen_pos).value = evalValue (f 65536) ∧
      (adaptiveLoop f 16 none sixteen_pos).warned
        = !(evalValue (f 65536)).isNaN := by
  obtain ⟨k, hk1, hk2, hv, hw⟩ :=
    adaptiveLoop_exhausted_spec f 16 sixteen_pos none (by norm_num) hx
  have hle : k ≤ 12 := by
    by_contra hgt
    push_neg at hgt
    have h13 : (16 : ℕ) * 2 ^ 13 ≤ 16 * 2 ^ k :=
      Nat.mul_le_mul_left _ (Nat.pow_le_pow_right (by norm_num) hgt)
    norm_num at h13
    omega
  have hge : 12 ≤ k := by
    by_contra hlt
    push_neg at hlt
    have h12 : (16 : ℕ) * 2 ^ (k + 1) ≤ 16 * 2 ^ 12 :=
      Nat.mul_le_mul_left _ (Nat.pow_le_pow_right (by norm_num) (by omega))
    norm_num at h12
    omega
  have hk : k = 12 := by omega
  subst hk
  norm_num at hv hw
  exact ⟨hv, hw⟩

/-- Witness for claim C2: the always-NaN expression exhausts the loop; the theorem then
gives the returned value and the (absent) warning. -/
theorem exhaustion_warning_and_value_witness :
    (adaptiveLoop (fun _ => EvalResult.ok FloatV.nan) 16 none sixteen_pos).value
        = FloatV.nan ∧
      (adaptiveLoop (fun _ => EvalResult.ok FloatV.nan) 16 none sixteen_pos).warned
        = false := by
  have h := exhaustion_warning_and_value (fun _ => EvalResult.ok FloatV.nan)
    (by simp [adaptiveLoop, evalValue, acceptTest, FloatV.isFinite, recordStep])
  simpa [evalValue, FloatV.isNaN] using h

/-- Counterexample to claim C3 as stated: an expression that never yields a finite value drives
the loop through THIRTEEN iterations (dps 16 through 65536), not at most
twelve as claimed (the twelve are the doublings). -/
theorem precision_loop_thirteen_iterations :
    (adaptiveLoop (fun _ => EvalResult.ok FloatV.posInf) 16 none sixteen_pos).trace
        = [16, 32, 64, 128, 256, 512, 1024, 2048, 4096, 8192, 16384, 32768, 65536] ∧
      (adaptiveLoop (fun _ => EvalResult.ok FloatV.posInf) 16 none
          sixteen_pos).trace.length = 13 := by
  refine ⟨?_, ?_⟩ <;>
    simp [adaptiveLoop, evalValue, acceptTest, FloatV.isFinite, recordStep]

/-- Claim C3 as amended: for every call that enters the main loop, the working
precision starts at 16 digits and exactly doubles at each iteration
(`trace = [16 * 2 ^ i | i < length]`), never exceeds 65536 digits, and the
loop runs at most THIRTEEN iterations (twelve doublings), so every call
terminates. -/
theorem precision_schedule (f : ℕ → EvalResult) :
    (adaptiveLoop f 16 none sixteen_pos).trace
        = (List.range (adaptiveLoop f 16 none sixteen_pos).trace.length).map
            (fun i => 16 * 2 ^ i) ∧
      (adaptiveLoop f 16 none sixteen_pos).trace.length ≤ 13 ∧
      (adaptiveLoop f 16 none sixteen_pos).trace.all
        (fun d => decide (d ≤ 65536)) = true := by
  obtain ⟨n, hn, hb⟩ := adaptiveLoop_trace_shape f 16 sixteen_pos none
  have hlen : (adaptiveLoop f 16 none sixteen_pos).trace.length = n := by
    rw [hn]
    simp
  refine ⟨by rw [hlen, hn], ?_, ?_⟩
  · rw [hlen]
    by_contra h
    push_neg at h
    have h13 := hb 13 (by omega)
    norm_num at h13
  · rw [hn]
    simp only [List.all_eq_true, List.mem_map, List.mem_range]
    rintro d ⟨i, hi, rfl⟩
    simpa using hb i hi

end Miscmaths
